import Mathlib

/-!
Verification of `minijit.py`, a JIT compiler from a subset of CPython
bytecode to x86-64 machine code.

The development shallowly embeds the program:

* `Instr` mirrors the IR triples `(op, a, b)` produced by `Compiler.compile`
  (operation name first, then destination and source operands; `Operand.non`
  stands for Python `None`, `Operand.imm` for integer constants).
* `Compiler.compile` embeds the bytecode-to-IR translation, with Python
  exceptions (`NotImplementedError`, `IndexError`) embedded as `Except.error`.
* `step`/`optimize` embed one iteration, resp. the whole loop, of the
  peephole optimizer `optimize(ir)`; `optFix` embeds the
  repeat-until-no-length-change driver loop in `compile_native`.
* `Assembler.*` embed the x86-64 emitters, byte for byte, including the
  faulty mask `0xff << i*2` in `little_endian` and the fact that `neg`
  calls the nonexistent method `self.register` (the class only defines
  `registers`), which raises `AttributeError`.
* `execIR` gives each IR instruction its intended x86-64 meaning on a
  machine state of eight 64-bit registers plus a data stack, with all
  arithmetic taken modulo 2^64.
* `pyEval` is the reference semantics of the straight-line CPython opcode
  subset the compiler accepts (arbitrary-precision integer arithmetic).
* `frontendStep`/`frontendRun` embed the `jit` decorator: a cached target
  that is computed on the first invocation and reused afterwards.
-/

/-- Register file of the eight x86-64 registers used by the program, in the
encoding order of `Assembler.registers`. -/
inductive Reg where
  | rax | rcx | rdx | rbx | rsp | rbp | rsi | rdi
deriving DecidableEq, Repr, Fintype

/-- Operation names appearing in IR triples (the emitter method names of
`Assembler`). -/
inductive Op where
  | mov | push | pop | immediate | add | sub | imul | neg | ret
deriving DecidableEq, Repr

/-- Operand of an IR triple: Python `None`, a register name, or an integer
constant. -/
inductive Operand where
  | non
  | reg (r : Reg)
  | imm (n : Int)
deriving DecidableEq, Repr

/-- IR instruction, mirroring the Python triples `(op, a, b)` with the
operation first, then destination `a` and source `b`. -/
structure Instr where
  op : Op
  a : Operand
  b : Operand
deriving DecidableEq, Repr

/-! ### The peephole optimizer

`optimize(ir)` in the source is a generator: it walks the list with an index,
fetches a window of up to four instructions (`fetch` returns `(None, None,
None)` past the end, so window conditions on missing instructions fail),
applies the first matching rewrite, advances the index past the consumed
window, and otherwise yields the current instruction and advances by one.
`step` embeds one loop iteration: it returns the instructions yielded in
that iteration and the list of instructions remaining after the consumed
window.  Inner guards (`if a2 != a3`, `if a2 != a4 and a3 != a4`) fall
through to the next rule on failure, which is equivalent to conjoining them
with the outer condition. -/
def step : List Instr → List Instr × List Instr
  | [] => ([], [])
  | i1 :: rest =>
    -- Remove nonsensical moves
    if i1.op = .mov ∧ i1.a = i1.b then
      ([], rest)
    else
      match rest with
      | [] => ([i1], [])
      | i2 :: rest2 =>
        -- mov X, Y ; mov Z, X  ⇒  mov Z, Y
        if i1.op = .mov ∧ i2.op = .mov ∧ i1.a = i2.b then
          ([⟨.mov, i2.a, i1.b⟩], rest2)
        -- push X ; pop Y  ⇒  mov Y, X
        else if i1.op = .push ∧ i2.op = .pop then
          ([⟨.mov, i2.a, i1.a⟩], rest2)
        else
          match rest2 with
          | [] => ([i1], rest)
          | i3 :: rest3 =>
            -- push X ; op ; pop Y  ⇒  mov Y, X ; op
            if i1.op = .push ∧ i3.op = .pop ∧ i2.op ≠ .push ∧ i2.op ≠ .pop ∧
                i2.a ≠ i3.a then
              ([⟨.mov, i3.a, i1.a⟩, i2], rest3)
            else
              match rest3 with
              | [] => ([i1], rest)
              | i4 :: rest4 =>
                -- push X ; op ; op ; pop Y  ⇒  mov Y, X ; op ; op
                if i1.op = .push ∧ i4.op = .pop ∧ i2.op ≠ .push ∧ i2.op ≠ .pop ∧
                    i3.op ≠ .push ∧ i3.op ≠ .pop ∧ i2.a ≠ i4.a ∧ i3.a ≠ i4.a then
                  ([⟨.mov, i4.a, i1.a⟩, i2, i3], rest4)
                else
                  ([i1], rest)

theorem step_snd_length (i1 : Instr) (rest : List Instr) :
    (step (i1 :: rest)).2.length ≤ rest.length := by
  rcases rest with _ | ⟨i2, rest2⟩ <;>
    [skip; rcases rest2 with _ | ⟨i3, rest3⟩] <;>
    [skip; skip; rcases rest3 with _ | ⟨i4, rest4⟩] <;>
    simp only [step] <;> split_ifs <;> simp <;> omega

theorem step_default_or_shrink (i1 : Instr) (rest : List Instr) :
    step (i1 :: rest) = ([i1], rest) ∨
      (step (i1 :: rest)).1.length + (step (i1 :: rest)).2.length + 1 ≤
        (i1 :: rest).length := by
  rcases rest with _ | ⟨i2, rest2⟩ <;>
    [skip; rcases rest2 with _ | ⟨i3, rest3⟩] <;>
    [skip; skip; rcases rest3 with _ | ⟨i4, rest4⟩] <;>
    simp only [step] <;> split_ifs <;>
    first
      | (left; rfl)
      | (right; simp; omega)
      | (right; simp)

/-- Embedding of one full pass of `optimize(ir)`: repeatedly apply `step`
until the input is exhausted, concatenating the yielded instructions. -/
def optimize : List Instr → List Instr
  | [] => []
  | i1 :: rest => (step (i1 :: rest)).1 ++ optimize (step (i1 :: rest)).2
termination_by l => l.length
decreasing_by
  all_goals (simp only [List.length_cons]; exact Nat.lt_succ_of_le (step_snd_length _ _))

theorem optimize_length_le (l : List Instr) : (optimize l).length ≤ l.length := by
  induction l using optimize.induct with
  | case1 => simp [optimize]
  | case2 i1 rest ih =>
    rw [optimize, List.length_append]
    rcases step_default_or_shrink i1 rest with h | h
    · rw [h] at ih ⊢
      simp at ih ⊢
      omega
    · simp only [List.length_cons] at h ⊢
      omega

theorem optimize_eq_of_length (l : List Instr) :
    (optimize l).length = l.length → optimize l = l := by
  induction l using optimize.induct with
  | case1 => intro _; rw [optimize]
  | case2 i1 rest ih =>
    intro hlen
    rw [optimize, List.length_append] at hlen
    rcases step_default_or_shrink i1 rest with h | h
    · rw [h] at hlen ih
      rw [optimize, h]
      simp at hlen ih ⊢
      exact ih (by omega)
    · exfalso
      have h2 := optimize_length_le (step (i1 :: rest)).2
      simp only [List.length_cons] at h hlen
      omega

/-- Instructions the rewrites are never allowed to touch: everything whose
operation is not `mov`, `push` or `pop`. -/
def preserved (i : Instr) : Bool :=
  match i.op with
  | .mov | .push | .pop => false
  | _ => true

theorem step_filter (i1 : Instr) (rest : List Instr) :
    (step (i1 :: rest)).1.filter preserved ++ (step (i1 :: rest)).2.filter preserved =
      (i1 :: rest).filter preserved := by
  rcases rest with _ | ⟨i2, rest2⟩ <;>
    [skip; rcases rest2 with _ | ⟨i3, rest3⟩] <;>
    [skip; skip; rcases rest3 with _ | ⟨i4, rest4⟩] <;>
    simp only [step] <;> split_ifs <;>
    simp_all [List.filter_cons, preserved] <;>
    split_ifs <;> simp

theorem optimize_filter (l : List Instr) :
    (optimize l).filter preserved = l.filter preserved := by
  induction l using optimize.induct with
  | case1 => rw [optimize]
  | case2 i1 rest ih =>
    rw [optimize, List.filter_append, ih]
    exact step_filter i1 rest

/-- Embedding of the optimization driver loop in `compile_native`: rerun
`optimize` until a pass removes no instruction (`reduction == 0`, i.e. the
pass output has the same length as its input), and return that last pass
output. -/
def optFix (ir : List Instr) : List Instr :=
  if h : (optimize ir).length = ir.length then optimize ir
  else optFix (optimize ir)
termination_by ir.length
decreasing_by
  have := optimize_length_le ir
  omega

theorem optimize_optFix (ir : List Instr) : optimize (optFix ir) = optFix ir := by
  induction ir using optFix.induct with
  | case1 ir h =>
    have heq := optimize_eq_of_length ir h
    rw [optFix, dif_pos h, heq]
    exact heq
  | case2 ir h ih =>
    rw [optFix, dif_neg h]
    exact ih

/-! ### Bytecode and the compiler to IR

`Compiler.decode` turns the raw byte stream into `(opname, argument)` pairs
(the plumbing differs between CPython versions); the embedding works at that
decoded level.  Opcodes outside the supported set are represented by
`PyOp.other` with their name; on them `Compiler.compile` raises
`NotImplementedError(op)`, embedded as `Except.error`. -/
inductive PyOp where
  | LOAD_FAST | STORE_FAST | LOAD_CONST
  | BINARY_MULTIPLY | BINARY_ADD | INPLACE_ADD
  | BINARY_SUBTRACT | INPLACE_SUBTRACT
  | UNARY_NEGATIVE | RETURN_VALUE
  | other (opname : String)
deriving DecidableEq, Repr

/-- Decoded bytecode instruction: opcode name plus its (possibly unused)
argument. -/
structure PyInstr where
  op : PyOp
  arg : Nat
deriving DecidableEq, Repr

/-- The pieces of a Python function object that `compile_native` and `jit`
consume: decoded bytecode, the `co_consts` tuple, and `co_argcount`. -/
structure PyFun where
  bytecode : List PyInstr
  consts : List Int
  argcount : Nat
deriving DecidableEq, Repr

namespace Compiler

/-- Embedding of `Compiler.variable`: slot `number` is looked up in the
4-tuple `("rdi", "rsi", "rdx", "rcx")`; an out-of-range slot raises
`IndexError` (embedded as `Except.error`). -/
def varReg (number : Nat) : Except String Reg :=
  match number with
  | 0 => .ok .rdi
  | 1 => .ok .rsi
  | 2 => .ok .rdx
  | 3 => .ok .rcx
  | _ => .error "IndexError: tuple index out of range"

/-- Embedding of `Compiler.compile` (as forced by `list(...)` in
`compile_native`, which drives the generator to completion, so the first
raised exception aborts the whole compilation with no partial result). -/
def compile : List PyInstr → List Int → Except String (List Instr)
  | [], _ => .ok []
  | i :: rest, constants =>
    match i.op with
    | .LOAD_FAST => do
      let r ← varReg i.arg
      let tail ← compile rest constants
      .ok (⟨.push, .reg r, .non⟩ :: tail)
    | .STORE_FAST => do
      let r ← varReg i.arg
      let tail ← compile rest constants
      .ok (⟨.pop, .reg .rax, .non⟩ :: ⟨.mov, .reg r, .reg .rax⟩ :: tail)
    | .LOAD_CONST =>
      match constants.get? i.arg with
      | some c => do
        let tail ← compile rest constants
        .ok (⟨.immediate, .reg .rax, .imm c⟩ :: ⟨.push, .reg .rax, .non⟩ :: tail)
      | none => .error "IndexError: tuple index out of range"
    | .BINARY_MULTIPLY => do
      let tail ← compile rest constants
      .ok (⟨.pop, .reg .rax, .non⟩ :: ⟨.pop, .reg .rbx, .non⟩ ::
        ⟨.imul, .reg .rax, .reg .rbx⟩ :: ⟨.push, .reg .rax, .non⟩ :: tail)
    | .BINARY_ADD | .INPLACE_ADD => do
      let tail ← compile rest constants
      .ok (⟨.pop, .reg .rax, .non⟩ :: ⟨.pop, .reg .rbx, .non⟩ ::
        ⟨.add, .reg .rax, .reg .rbx⟩ :: ⟨.push, .reg .rax, .non⟩ :: tail)
    | .BINARY_SUBTRACT | .INPLACE_SUBTRACT => do
      let tail ← compile rest constants
      .ok (⟨.pop, .reg .rbx, .non⟩ :: ⟨.pop, .reg .rax, .non⟩ ::
        ⟨.sub, .reg .rax, .reg .rbx⟩ :: ⟨.push, .reg .rax, .non⟩ :: tail)
    | .UNARY_NEGATIVE => do
      let tail ← compile rest constants
      .ok (⟨.pop, .reg .rax, .non⟩ :: ⟨.neg, .reg .rax, .non⟩ ::
        ⟨.push, .reg .rax, .non⟩ :: tail)
    | .RETURN_VALUE => do
      let tail ← compile rest constants
      .ok (⟨.pop, .reg .rax, .non⟩ :: ⟨.ret, .non, .non⟩ :: tail)
    | .other opname => .error ("NotImplementedError: " ++ opname)

end Compiler

/-! ### The assembler

Machine-code bytes are modelled as the list of integers the emitters write
into the memory block.  Emitters that can raise are embedded in `Except`:
`registers` raises `ValueError` when its argument is not one of the eight
register names (e.g. `None` or an integer), and `neg` raises
`AttributeError` because it calls `self.register(a)` while the class only
defines a method named `registers`. -/
namespace Assembler

/-- Embedding of `Assembler.registers` with one argument: the index of the
register name in the tuple `("rax", "rcx", "rdx", "rbx", "rsp", "rbp",
"rsi", "rdi")`. -/
def registers (a : Reg) : Nat :=
  match a with
  | .rax => 0
  | .rcx => 1
  | .rdx => 2
  | .rbx => 3
  | .rsp => 4
  | .rbp => 5
  | .rsi => 6
  | .rdi => 7

/-- Embedding of `Assembler.registers` with two arguments:
`enc = enc << 3 | order.index(b)`. -/
def registers2 (a b : Reg) : Nat :=
  registers a <<< 3 ||| registers b

/-- Operand-level lookup: `order.index(a)` raises `ValueError` when `a` is
not a register name. -/
def regIndex (a : Operand) : Except String Nat :=
  match a with
  | .reg r => .ok (registers r)
  | _ => .error "ValueError: not in tuple"

/-- Operand-level two-register encoding, raising `ValueError` on
non-register operands. -/
def regIndex2 (a b : Operand) : Except String Nat :=
  match a, b with
  | .reg r, .reg s => .ok (registers2 r s)
  | _, _ => .error "ValueError: not in tuple"

/-- Embedding of `Assembler.little_endian`, byte for byte:
`[(n & (0xff << i*2)) >> i*8 for i in range(8)]`.  Python integers are
arbitrary-precision two's-complement bit vectors, which is exactly
`Int.land`/`Int.ShiftLeft`/`Int.ShiftRight`.  Note the mask `0xff << i*2`
(the shift distances of mask and result differ), faithfully preserved. -/
def little_endian (n : Int) : List Int :=
  (List.range 8).map fun i =>
    Int.land n ((0xff : Int) <<< ((i * 2 : Nat) : Int)) >>> ((i * 8 : Nat) : Int)

/-- Embedding of `Assembler.ret`: `emit(0xc3)`, both arguments unused. -/
def ret (_a _b : Operand) : Except String (List Int) :=
  .ok [0xc3]

/-- Embedding of `Assembler.push`: `emit(0x50 | registers(a))`. -/
def push (a _b : Operand) : Except String (List Int) := do
  let r ← regIndex a
  .ok [((0x50 ||| r : Nat) : Int)]

/-- Embedding of `Assembler.pop`: `emit(0x58 | registers(a))`. -/
def pop (a _b : Operand) : Except String (List Int) := do
  let r ← regIndex a
  .ok [((0x58 ||| r : Nat) : Int)]

/-- Embedding of `Assembler.imul`:
`emit(0x48, 0x0f, 0xaf, 0xc0 | registers(a, b))`. -/
def imul (a b : Operand) : Except String (List Int) := do
  let e ← regIndex2 a b
  .ok [0x48, 0x0f, 0xaf, ((0xc0 ||| e : Nat) : Int)]

/-- Embedding of `Assembler.add`: `emit(0x48, 0x01, 0xc0 | registers(b, a))`. -/
def add (a b : Operand) : Except String (List Int) := do
  let e ← regIndex2 b a
  .ok [0x48, 0x01, ((0xc0 ||| e : Nat) : Int)]

/-- Embedding of `Assembler.sub`: `emit(0x48, 0x29, 0xc0 | registers(b, a))`. -/
def sub (a b : Operand) : Except String (List Int) := do
  let e ← regIndex2 b a
  .ok [0x48, 0x29, ((0xc0 ||| e : Nat) : Int)]

/-- Embedding of `Assembler.neg`.  The source line is
`self.emit(0x48, 0xf7, 0xd8 | self.register(a))`, but the object has no
attribute `register` (the class defines `registers`), so invoking this
emitter raises `AttributeError` before emitting anything. -/
def neg (_a _b : Operand) : Except String (List Int) :=
  .error "AttributeError: Assembler object has no attribute register"

/-- Embedding of `Assembler.mov`: `emit(0x48, 0x89, 0xc0 | registers(b, a))`. -/
def mov (a b : Operand) : Except String (List Int) := do
  let e ← regIndex2 b a
  .ok [0x48, 0x89, ((0xc0 ||| e : Nat) : Int)]

/-- Embedding of `Assembler.immediate`:
`emit(0x48, 0xb8 | registers(a), *little_endian(number))`.  A non-integer
second operand would make `little_endian` raise `TypeError`. -/
def immediate (a b : Operand) : Except String (List Int) := do
  let r ← regIndex a
  match b with
  | .imm n => .ok ([0x48, ((0xb8 ||| r : Nat) : Int)] ++ little_endian n)
  | _ => .error "TypeError: unsupported operand type"

end Assembler

/-- Embedding of the emitter dispatch loop in `compile_native`:
`emit = getattr(assembler, name); emit(a, b)` for each IR triple, with the
emitted bytes laid out consecutively in the block. -/
def assembleInstr (i : Instr) : Except String (List Int) :=
  match i.op with
  | .mov => Assembler.mov i.a i.b
  | .push => Assembler.push i.a i.b
  | .pop => Assembler.pop i.a i.b
  | .immediate => Assembler.immediate i.a i.b
  | .add => Assembler.add i.a i.b
  | .sub => Assembler.sub i.a i.b
  | .imul => Assembler.imul i.a i.b
  | .neg => Assembler.neg i.a i.b
  | .ret => Assembler.ret i.a i.b

/-- Machine code of a whole IR sequence: the concatenation of the bytes of
each instruction; the first raising emitter aborts assembly. -/
def assemble (ir : List Instr) : Except String (List Int) := do
  let chunks ← ir.mapM assembleInstr
  .ok chunks.flatten

/-- Embedding of `compile_native` (without the printing): compile the
bytecode to IR, optimize to a fixed point, and assemble.  The result is the
content of the executable block whose address becomes the native entry. -/
def compileNative (f : PyFun) : Except String (List Int) := do
  let ir ← Compiler.compile f.bytecode f.consts
  assemble (optFix ir)

/-! ### Machine semantics of the IR

Each IR instruction is given its intended x86-64 meaning: eight 64-bit
general-purpose registers (values are naturals reduced modulo `2^64` by
every arithmetic instruction) and the hardware stack used by `push`/`pop`
as the data stack.  `ret` stops execution and the observable result is the
value of `rax`, the return-value register of the calling convention.
Execution of a malformed instruction (one whose operands do not fit its
operation, which the assembler could never have encoded) and popping an
empty data stack are undefined, modelled as `Option.none`, as is running
off the end of the code without `ret`. -/

/-- Values of the eight registers. -/
structure RegFile where
  rax : Nat
  rcx : Nat
  rdx : Nat
  rbx : Nat
  rsp : Nat
  rbp : Nat
  rsi : Nat
  rdi : Nat
deriving DecidableEq, Repr

/-- Read a register. -/
def RegFile.get (f : RegFile) : Reg → Nat
  | .rax => f.rax
  | .rcx => f.rcx
  | .rdx => f.rdx
  | .rbx => f.rbx
  | .rsp => f.rsp
  | .rbp => f.rbp
  | .rsi => f.rsi
  | .rdi => f.rdi

/-- Write a register. -/
def RegFile.set (f : RegFile) (r : Reg) (v : Nat) : RegFile :=
  match r with
  | .rax => { f with rax := v }
  | .rcx => { f with rcx := v }
  | .rdx => { f with rdx := v }
  | .rbx => { f with rbx := v }
  | .rsp => { f with rsp := v }
  | .rbp => { f with rbp := v }
  | .rsi => { f with rsi := v }
  | .rdi => { f with rdi := v }

/-- Machine state: register file plus the data stack. -/
structure MState where
  regs : RegFile
  stack : List Nat
deriving DecidableEq, Repr

/-- Execute a straight-line IR sequence; `some v` is the value returned in
`rax` at the first `ret`. -/
def execIR : List Instr → MState → Option Nat
  | [], _ => none
  | i :: rest, s =>
    match i with
    | ⟨.ret, _, _⟩ => some (s.regs.get .rax)
    | ⟨.push, .reg r, _⟩ => execIR rest ⟨s.regs, s.regs.get r :: s.stack⟩
    | ⟨.pop, .reg r, _⟩ =>
      match s.stack with
      | [] => none
      | v :: st => execIR rest ⟨s.regs.set r v, st⟩
    | ⟨.mov, .reg d, .reg sr⟩ =>
      execIR rest ⟨s.regs.set d (s.regs.get sr), s.stack⟩
    | ⟨.immediate, .reg d, .imm n⟩ =>
      execIR rest ⟨s.regs.set d (n.emod ((2 ^ 64 : Nat) : Int)).toNat, s.stack⟩
    | ⟨.add, .reg d, .reg sr⟩ =>
      execIR rest ⟨s.regs.set d ((s.regs.get d + s.regs.get sr) % 2 ^ 64), s.stack⟩
    | ⟨.sub, .reg d, .reg sr⟩ =>
      execIR rest
        ⟨s.regs.set d ((s.regs.get d + (2 ^ 64 - s.regs.get sr % 2 ^ 64)) % 2 ^ 64), s.stack⟩
    | ⟨.imul, .reg d, .reg sr⟩ =>
      execIR rest ⟨s.regs.set d ((s.regs.get d * s.regs.get sr) % 2 ^ 64), s.stack⟩
    | ⟨.neg, .reg d, _⟩ =>
      execIR rest ⟨s.regs.set d ((2 ^ 64 - s.regs.get d % 2 ^ 64) % 2 ^ 64), s.stack⟩
    | _ => none

/-! ### Reference semantics of the interpreted routine

The straight-line CPython stack machine on arbitrary-precision integers,
for exactly the opcodes the compiler accepts.  Fast locals start out
holding the call arguments in slots `0, 1, ...`; loading an unbound slot
or an interpreter error is `none`. -/

/-- Write a fast-local slot. -/
def setLocal (l : Nat → Option Int) (n : Nat) (v : Int) : Nat → Option Int :=
  fun m => if m = n then some v else l m

/-- Run the interpreted routine body: bytecode, constants, fast locals,
value stack. -/
def pyEval : List PyInstr → List Int → (Nat → Option Int) → List Int → Option Int
  | [], _, _, _ => none
  | i :: rest, constants, locals, stack =>
    match i.op with
    | .LOAD_FAST =>
      match locals i.arg with
      | some v => pyEval rest constants locals (v :: stack)
      | none => none
    | .STORE_FAST =>
      match stack with
      | v :: st => pyEval rest constants (setLocal locals i.arg v) st
      | [] => none
    | .LOAD_CONST =>
      match constants.get? i.arg with
      | some c => pyEval rest constants locals (c :: stack)
      | none => none
    | .BINARY_MULTIPLY =>
      match stack with
      | b :: a :: st => pyEval rest constants locals ((a * b) :: st)
      | _ => none
    | .BINARY_ADD | .INPLACE_ADD =>
      match stack with
      | b :: a :: st => pyEval rest constants locals ((a + b) :: st)
      | _ => none
    | .BINARY_SUBTRACT | .INPLACE_SUBTRACT =>
      match stack with
      | b :: a :: st => pyEval rest constants locals ((a - b) :: st)
      | _ => none
    | .UNARY_NEGATIVE =>
      match stack with
      | v :: st => pyEval rest constants locals (-v :: st)
      | _ => none
    | .RETURN_VALUE =>
      match stack with
      | v :: _ => some v
      | [] => none
    | .other _ => none

/-- Result of invoking the interpreted routine on a tuple of arguments. -/
def pyInvoke (f : PyFun) (args : List Int) : Option Int :=
  pyEval f.bytecode f.consts (fun n => args.get? n) []

/-! ### The invocation adapter (`jit` decorator)

`frontend` caches, in the attribute `frontend.function`, either the native
entry produced by a successful compilation or, if `compile_native` raised,
the original Python function; the cache is written on the first call and
every call invokes the cached target. -/

/-- The callable cached by the wrapper. -/
inductive Target where
  | native (code : List Int)
  | interpreted
deriving DecidableEq, Repr

/-- Outcome of the one-time compilation attempt in `frontend`: the native
entry on success, the original function as fallback when any exception was
raised. -/
def compileTarget (f : PyFun) : Target :=
  match compileNative f with
  | .ok code => .native code
  | .error _ => .interpreted

/-- One invocation of `frontend`: given the cached state (`none` before the
first call), return the new state and the target this call invokes. -/
def frontendStep (f : PyFun) (st : Option Target) : Option Target × Target :=
  match st with
  | some t => (some t, t)
  | none =>
    let t := compileTarget f
    (some t, t)

/-- Cache state after `n` invocations of the wrapper. -/
def frontendRun (f : PyFun) : Nat → Option Target
  | 0 => none
  | n + 1 => (frontendStep f (frontendRun f n)).1

/-- Target invoked by the `(n+1)`-st call of the wrapper. -/
def frontendCalled (f : PyFun) (n : Nat) : Target :=
  (frontendStep f (frontendRun f n)).2

/-- Number of times the first `n` invocations attempt compilation (the
`not hasattr(frontend, "function")` branch). -/
def frontendAttempts (f : PyFun) : Nat → Nat
  | 0 => 0
  | n + 1 => frontendAttempts f n + (if frontendRun f n = none then 1 else 0)

/-- Value returned by a call of the wrapper given the invoked target;
`runNative` is the semantics of jumping to the executable block, a
parameter of the model. -/
def callTarget (runNative : List Int → List Int → Option Int)
    (f : PyFun) (t : Target) (args : List Int) : Option Int :=
  match t with
  | .native code => runNative code args
  | .interpreted => pyInvoke f args

/-- Value returned by the `(n+1)`-st invocation of the wrapper. -/
def frontendResult (runNative : List Int → List Int → Option Int)
    (f : PyFun) (n : Nat) (args : List Int) : Option Int :=
  callTarget runNative f (frontendCalled f n) args

instance {ε α : Type} [DecidableEq ε] [DecidableEq α] : DecidableEq (Except ε α)
  | .ok x, .ok y =>
    match decEq x y with
    | isTrue h => isTrue (h ▸ rfl)
    | isFalse h => isFalse fun hc => h (Except.ok.inj hc)
  | .ok _, .error _ => isFalse fun hc => Except.noConfusion hc
  | .error _, .ok _ => isFalse fun hc => Except.noConfusion hc
  | .error e, .error g =>
    match decEq e g with
    | isTrue h => isTrue (h ▸ rfl)
    | isFalse h => isFalse fun hc => h (Except.error.inj hc)

theorem RegFile.get_set_same (f : RegFile) (r : Reg) (v : Nat) :
    (f.set r v).get r = v := by
  cases r <;> rfl

theorem RegFile.get_set_ne (f : RegFile) (r q : Reg) (v : Nat) (h : q ≠ r) :
    (f.set r v).get q = f.get q := by
  cases r <;> cases q <;> first | rfl | exact absurd rfl h

theorem RegFile.ext_get (f g : RegFile) (h : ∀ r, f.get r = g.get r) : f = g := by
  cases f; cases g
  simp only [RegFile.mk.injEq]
  exact ⟨h .rax, h .rcx, h .rdx, h .rbx, h .rsp, h .rbp, h .rsi, h .rdi⟩

theorem RegFile.set_comm (f : RegFile) (r q : Reg) (v w : Nat) (h : r ≠ q) :
    (f.set r v).set q w = (f.set q w).set r v := by
  cases r <;> cases q <;> first | exact absurd rfl h | rfl

theorem execIR_congr_state (code : List Instr) (s1 s2 : MState)
    (hr : ∀ r, s1.regs.get r = s2.regs.get r) (hst : s1.stack = s2.stack) :
    execIR code s1 = execIR code s2 := by
  obtain ⟨r1, st1⟩ := s1
  obtain ⟨r2, st2⟩ := s2
  have : r1 = r2 := RegFile.ext_get r1 r2 hr
  subst this
  simp only at hst
  subst hst
  rfl

/-! ### Liveness of a register in an IR suffix

`readsX i x` and `writesX i x` record whether instruction `i` reads,
resp. writes, register `x` under the machine semantics (the destination
operand `a` of the arithmetic instructions is also read; `ret` reads
`rax`).  `readBeforeWrite x code` is true when some instruction of `code`
reads `x` before any instruction writes it. -/
def readsX (i : Instr) (x : Reg) : Bool :=
  match i.op with
  | .mov => i.b == .reg x
  | .add | .sub | .imul => i.a == .reg x || i.b == .reg x
  | .neg => i.a == .reg x
  | .push => i.a == .reg x
  | .ret => x == .rax
  | .pop | .immediate => false

def writesX (i : Instr) (x : Reg) : Bool :=
  match i.op with
  | .mov | .add | .sub | .imul | .neg | .immediate | .pop => i.a == .reg x
  | .push | .ret => false

def readBeforeWrite (x : Reg) : List Instr → Bool
  | [] => false
  | i :: rest => readsX i x || (!writesX i x && readBeforeWrite x rest)

theorem RegFile.set_get_self (f : RegFile) (r : Reg) : f.set r (f.get r) = f := by
  cases r <;> rfl

theorem RegFile.set_set_same (f : RegFile) (r : Reg) (v w : Nat) :
    (f.set r v).set r w = f.set r w := by
  cases r <;> rfl

theorem regs_agree_set (r1 r2 : RegFile) (x : Reg)
    (hreg : ∀ r : Reg, r ≠ x → r1.get r = r2.get r) (d : Reg) (v : Nat) :
    ∀ r : Reg, r ≠ x → (r1.set d v).get r = (r2.set d v).get r := by
  intro r hr
  by_cases h : r = d
  · subst h; rw [RegFile.get_set_same, RegFile.get_set_same]
  · rw [RegFile.get_set_ne _ _ _ _ h, RegFile.get_set_ne _ _ _ _ h]
    exact hreg r hr

theorem regs_eq_set_x (r1 r2 : RegFile) (x : Reg)
    (hreg : ∀ r : Reg, r ≠ x → r1.get r = r2.get r) (v : Nat) :
    ∀ r : Reg, (r1.set x v).get r = (r2.set x v).get r := by
  intro r
  by_cases h : r = x
  · subst h; rw [RegFile.get_set_same, RegFile.get_set_same]
  · rw [RegFile.get_set_ne _ _ _ _ h, RegFile.get_set_ne _ _ _ _ h]
    exact hreg r h

theorem execIR_agree (x : Reg) (code : List Instr) :
    ∀ (s1 s2 : MState), s1.stack = s2.stack →
      (∀ r : Reg, r ≠ x → s1.regs.get r = s2.regs.get r) →
      readBeforeWrite x code = false →
      execIR code s1 = execIR code s2 := by
  induction code with
  | nil => intro s1 s2 _ _ _; rfl
  | cons i rest ih =>
    intro s1 s2 hst hreg hrbw
    obtain ⟨op, a, b⟩ := i
    rw [readBeforeWrite] at hrbw
    simp only [Bool.or_eq_false_iff] at hrbw
    obtain ⟨hread, hwrest⟩ := hrbw
    cases op
    case ret =>
      simp only [readsX, beq_eq_false_iff_ne, ne_eq] at hread
      simp only [execIR]
      rw [hreg .rax fun h => hread h.symm]
    case push =>
      rcases a with _ | r | n
      · rfl
      · simp only [readsX, beq_eq_false_iff_ne, ne_eq, Operand.reg.injEq] at hread
        simp only [writesX, Bool.not_false, Bool.true_and] at hwrest
        simp only [execIR]
        exact ih ⟨s1.regs, _⟩ ⟨s2.regs, _⟩
          (by simp only [hst, hreg r hread]) hreg hwrest
      · rfl
    case pop =>
      rcases a with _ | r | n
      · rfl
      · simp only [execIR]
        rw [hst]
        cases s2.stack with
        | nil => rfl
        | cons v st =>
          by_cases hr : r = x
          · subst hr
            exact execIR_congr_state rest _ _ (regs_eq_set_x _ _ _ hreg v) rfl
          · have hw : writesX ⟨.pop, .reg r, b⟩ x = false := by
              simp only [writesX, beq_eq_false_iff_ne, ne_eq, Operand.reg.injEq]
              exact hr
            rw [hw, Bool.not_false, Bool.true_and] at hwrest
            exact ih ⟨s1.regs.set r v, st⟩ ⟨s2.regs.set r v, st⟩ rfl
              (regs_agree_set _ _ _ hreg r v) hwrest
      · rfl
    case mov =>
      rcases a with _ | d | n <;> rcases b with _ | sr | m <;> try rfl
      simp only [readsX, beq_eq_false_iff_ne, ne_eq, Operand.reg.injEq] at hread
      have hv := hreg sr hread
      by_cases hd : d = x
      · subst hd
        simp only [execIR]
        rw [hv]
        exact execIR_congr_state rest _ _ (regs_eq_set_x _ _ _ hreg _) hst
      · have hw : writesX ⟨.mov, .reg d, .reg sr⟩ x = false := by
          simp only [writesX, beq_eq_false_iff_ne, ne_eq, Operand.reg.injEq]
          exact hd
        rw [hw, Bool.not_false, Bool.true_and] at hwrest
        simp only [execIR]
        rw [hv]
        exact ih ⟨s1.regs.set d (s2.regs.get sr), s1.stack⟩
          ⟨s2.regs.set d (s2.regs.get sr), s2.stack⟩ hst
          (regs_agree_set _ _ _ hreg d _) hwrest
    case immediate =>
      rcases a with _ | d | n <;> rcases b with _ | sr | m <;> try rfl
      by_cases hd : d = x
      · subst hd
        simp only [execIR]
        exact execIR_congr_state rest _ _ (regs_eq_set_x _ _ _ hreg _) hst
      · have hw : writesX ⟨.immediate, .reg d, .imm m⟩ x = false := by
          simp only [writesX, beq_eq_false_iff_ne, ne_eq, Operand.reg.injEq]
          exact hd
        rw [hw, Bool.not_false, Bool.true_and] at hwrest
        simp only [execIR]
        exact ih ⟨s1.regs.set d _, s1.stack⟩ ⟨s2.regs.set d _, s2.stack⟩ hst
          (regs_agree_set _ _ _ hreg d _) hwrest
    case add =>
      rcases a with _ | d | n <;> rcases b with _ | sr | m <;> try rfl
      simp only [readsX, Bool.or_eq_false_iff, beq_eq_false_iff_ne, ne_eq,
        Operand.reg.injEq] at hread
      obtain ⟨hd, hsr⟩ := hread
      have hw : writesX ⟨.add, .reg d, .reg sr⟩ x = false := by
        simp only [writesX, beq_eq_false_iff_ne, ne_eq, Operand.reg.injEq]
        exact hd
      rw [hw, Bool.not_false, Bool.true_and] at hwrest
      simp only [execIR]
      rw [hreg d hd, hreg sr hsr]
      exact ih ⟨s1.regs.set d _, s1.stack⟩ ⟨s2.regs.set d _, s2.stack⟩ hst
        (regs_agree_set _ _ _ hreg d _) hwrest
    case sub =>
      rcases a with _ | d | n <;> rcases b with _ | sr | m <;> try rfl
      simp only [readsX, Bool.or_eq_false_iff, beq_eq_false_iff_ne, ne_eq,
        Operand.reg.injEq] at hread
      obtain ⟨hd, hsr⟩ := hread
      have hw : writesX ⟨.sub, .reg d, .reg sr⟩ x = false := by
        simp only [writesX, beq_eq_false_iff_ne, ne_eq, Operand.reg.injEq]
        exact hd
      rw [hw, Bool.not_false, Bool.true_and] at hwrest
      simp only [execIR]
      rw [hreg d hd, hreg sr hsr]
      exact ih ⟨s1.regs.set d _, s1.stack⟩ ⟨s2.regs.set d _, s2.stack⟩ hst
        (regs_agree_set _ _ _ hreg d _) hwrest
    case imul =>
      rcases a with _ | d | n <;> rcases b with _ | sr | m <;> try rfl
      simp only [readsX, Bool.or_eq_false_iff, beq_eq_false_iff_ne, ne_eq,
        Operand.reg.injEq] at hread
      obtain ⟨hd, hsr⟩ := hread
      have hw : writesX ⟨.imul, .reg d, .reg sr⟩ x = false := by
        simp only [writesX, beq_eq_false_iff_ne, ne_eq, Operand.reg.injEq]
        exact hd
      rw [hw, Bool.not_false, Bool.true_and] at hwrest
      simp only [execIR]
      rw [hreg d hd, hreg sr hsr]
      exact ih ⟨s1.regs.set d _, s1.stack⟩ ⟨s2.regs.set d _, s2.stack⟩ hst
        (regs_agree_set _ _ _ hreg d _) hwrest
    case neg =>
      rcases a with _ | d | n
      · rfl
      · simp only [readsX, beq_eq_false_iff_ne, ne_eq, Operand.reg.injEq] at hread
        have hw : writesX ⟨.neg, .reg d, b⟩ x = false := by
          simp only [writesX, beq_eq_false_iff_ne, ne_eq, Operand.reg.injEq]
          exact hread
        rw [hw, Bool.not_false, Bool.true_and] at hwrest
        simp only [execIR]
        rw [hreg d hread]
        exact ih ⟨s1.regs.set d _, s1.stack⟩ ⟨s2.regs.set d _, s2.stack⟩ hst
          (regs_agree_set _ _ _ hreg d _) hwrest
      · rfl

/-- Opcodes outside the supported set. -/
def isUnsupported : PyOp → Bool
  | .other _ => true
  | _ => false

/-- Bytecode instruction referencing a fast-local slot beyond the four
argument registers. -/
def bigSlot (i : PyInstr) : Bool :=
  ((i.op == PyOp.LOAD_FAST) || (i.op == PyOp.STORE_FAST)) && decide (4 ≤ i.arg)

theorem Compiler.varReg_error (n : Nat) (h : 4 ≤ n) :
    Compiler.varReg n = .error "IndexError: tuple index out of range" := by
  match n with
  | 0 | 1 | 2 | 3 => omega
  | m + 4 => rfl

theorem compile_cons_error (i : PyInstr) (rest : List PyInstr) (constants : List Int)
    (h : ∃ e, Compiler.compile rest constants = .error e) :
    ∃ e, Compiler.compile (i :: rest) constants = .error e := by
  obtain ⟨e, he⟩ := h
  cases hop : i.op
  case LOAD_FAST =>
    cases hv : Compiler.varReg i.arg with
    | error e2 => exact ⟨e2, by simp only [Compiler.compile, hop, hv]; rfl⟩
    | ok r => exact ⟨e, by simp only [Compiler.compile, hop, hv, he]; rfl⟩
  case STORE_FAST =>
    cases hv : Compiler.varReg i.arg with
    | error e2 => exact ⟨e2, by simp only [Compiler.compile, hop, hv]; rfl⟩
    | ok r => exact ⟨e, by simp only [Compiler.compile, hop, hv, he]; rfl⟩
  case LOAD_CONST =>
    cases hc : constants.get? i.arg with
    | none => exact ⟨"IndexError: tuple index out of range",
        by simp only [Compiler.compile, hop, hc]⟩
    | some c => exact ⟨e, by simp only [Compiler.compile, hop, hc, he]; rfl⟩
  case BINARY_MULTIPLY => exact ⟨e, by simp only [Compiler.compile, hop, he]; rfl⟩
  case BINARY_ADD => exact ⟨e, by simp only [Compiler.compile, hop, he]; rfl⟩
  case INPLACE_ADD => exact ⟨e, by simp only [Compiler.compile, hop, he]; rfl⟩
  case BINARY_SUBTRACT => exact ⟨e, by simp only [Compiler.compile, hop, he]; rfl⟩
  case INPLACE_SUBTRACT => exact ⟨e, by simp only [Compiler.compile, hop, he]; rfl⟩
  case UNARY_NEGATIVE => exact ⟨e, by simp only [Compiler.compile, hop, he]; rfl⟩
  case RETURN_VALUE => exact ⟨e, by simp only [Compiler.compile, hop, he]; rfl⟩
  case other s =>
    exact ⟨"NotImplementedError: " ++ s, by simp only [Compiler.compile, hop]⟩

theorem compile_error_of_unsupported (bc : List PyInstr) (constants : List Int) :
    bc.any (fun i => isUnsupported i.op) = true →
    ∃ e, Compiler.compile bc constants = .error e := by
  induction bc with
  | nil => intro h; simp at h
  | cons i rest ih =>
    intro h
    simp only [List.any_cons, Bool.or_eq_true] at h
    rcases h with h | h
    · cases hop : i.op
      case other s =>
        exact ⟨"NotImplementedError: " ++ s, by simp only [Compiler.compile, hop]⟩
      all_goals (rw [hop] at h; simp [isUnsupported] at h)
    · exact compile_cons_error i rest constants (ih h)

theorem compile_error_of_bigslot (bc : List PyInstr) (constants : List Int) :
    bc.any bigSlot = true →
    ∃ e, Compiler.compile bc constants = .error e := by
  induction bc with
  | nil => intro h; simp at h
  | cons i rest ih =>
    intro h
    simp only [List.any_cons, Bool.or_eq_true] at h
    rcases h with h | h
    · simp only [bigSlot, Bool.and_eq_true, Bool.or_eq_true, beq_iff_eq,
        decide_eq_true_eq] at h
      obtain ⟨hop2, harg⟩ := h
      rcases hop2 with hop | hop
      · exact ⟨"IndexError: tuple index out of range",
          by simp only [Compiler.compile, hop, Compiler.varReg_error i.arg harg]; rfl⟩
      · exact ⟨"IndexError: tuple index out of range",
          by simp only [Compiler.compile, hop, Compiler.varReg_error i.arg harg]; rfl⟩
    · exact compile_cons_error i rest constants (ih h)

theorem compileNative_error_of_compile_error (f : PyFun)
    (h : ∃ e, Compiler.compile f.bytecode f.consts = .error e) :
    ∃ e, compileNative f = .error e := by
  obtain ⟨e, he⟩ := h
  exact ⟨e, by simp only [compileNative, he]; rfl⟩

theorem compileTarget_of_error (f : PyFun)
    (h : ∃ e, compileNative f = .error e) : compileTarget f = .interpreted := by
  obtain ⟨e, he⟩ := h
  simp only [compileTarget, he]

theorem frontendRun_succ (f : PyFun) (n : Nat) :
    frontendRun f (n + 1) = some (compileTarget f) := by
  induction n with
  | zero => rfl
  | succ n ih => rw [frontendRun, ih]; rfl

theorem frontendCalled_eq (f : PyFun) (n : Nat) :
    frontendCalled f n = compileTarget f := by
  cases n with
  | zero => rfl
  | succ n => rw [frontendCalled, frontendRun_succ]; rfl

theorem frontendAttempts_eq (f : PyFun) (n : Nat) :
    frontendAttempts f n = min n 1 := by
  induction n with
  | zero => rfl
  | succ n ih =>
    rw [frontendAttempts, ih]
    cases n with
    | zero => rfl
    | succ m => rw [frontendRun_succ]; simp

/-! ### Reference x86-64 encodings

Modelled from the spec: the exact byte sequences the x86-64 instruction-set
architecture defines for the 64-bit operand-size register forms of the nine
operations (`REX.W` prefix `0x48`, ModRM `0xc0 + reg*8 + rm` for the
direct-register addressing mode, opcodes `89 /r` mov, `01 /r` add, `29 /r`
sub, `0f af /r` imul (reg = destination), `f7 /3` neg, `50+r` push, `58+r`
pop, `c3` ret, `b8+r` followed by the 8 little-endian bytes of the
immediate for mov r64, imm64). -/

/-- Architectural register numbers of the eight registers. -/
def refRegNum (r : Reg) : Nat :=
  match r with
  | .rax => 0
  | .rcx => 1
  | .rdx => 2
  | .rbx => 3
  | .rsp => 4
  | .rbp => 5
  | .rsi => 6
  | .rdi => 7

/-- ModRM byte for two direct registers. -/
def refModRM (regfield rm : Nat) : Nat :=
  0xc0 + regfield * 8 + rm

/-- Little-endian bytes of the 64-bit two's-complement encoding of `n`. -/
def refLE64 (n : Int) : List Int :=
  (List.range 8).map fun i => (((n.emod ((2 ^ 64 : Nat) : Int)).toNat / 256 ^ i) % 256 : Nat)

def refMov (dst src : Reg) : List Int :=
  [0x48, 0x89, (refModRM (refRegNum src) (refRegNum dst) : Nat)]

def refAdd (dst src : Reg) : List Int :=
  [0x48, 0x01, (refModRM (refRegNum src) (refRegNum dst) : Nat)]

def refSub (dst src : Reg) : List Int :=
  [0x48, 0x29, (refModRM (refRegNum src) (refRegNum dst) : Nat)]

def refImul (dst src : Reg) : List Int :=
  [0x48, 0x0f, 0xaf, (refModRM (refRegNum dst) (refRegNum src) : Nat)]

def refPush (r : Reg) : List Int :=
  [(0x50 + refRegNum r : Nat)]

def refPop (r : Reg) : List Int :=
  [(0x58 + refRegNum r : Nat)]

def refNeg (r : Reg) : List Int :=
  [0x48, 0xf7, (0xd8 + refRegNum r : Nat)]

def refRet : List Int :=
  [0xc3]

def refMovImm64 (r : Reg) (n : Int) : List Int :=
  ([0x48, ((0xb8 + refRegNum r : Nat) : Int)] : List Int) ++ refLE64 n

/-- C2.  The claim states that every emitter produces exactly the reference
x86-64 encoding, that the immediate-load emitter writes the 8 little-endian
bytes of any signed 64-bit constant, and that the negation emitter succeeds.
The register-form emitters mov/add/sub/imul/push/pop/ret are correct for
all register operands, but `little_endian` masks with `0xff << i*2` instead
of `0xff << i*8`, so already for the constant 1024 the emitted immediate
bytes are all zero instead of `00 04 00 00 00 00 00 00`; and `neg` raises
`AttributeError` (it calls the nonexistent method `self.register`) instead
of emitting `48 f7 d8+r`.  The theorem documents the divergence at the
failing inputs. -/
theorem C2_emitter_encodings :
    (∀ a b : Reg, assembleInstr ⟨.mov, .reg a, .reg b⟩ = .ok (refMov a b)) ∧
    (∀ a b : Reg, assembleInstr ⟨.add, .reg a, .reg b⟩ = .ok (refAdd a b)) ∧
    (∀ a b : Reg, assembleInstr ⟨.sub, .reg a, .reg b⟩ = .ok (refSub a b)) ∧
    (∀ a b : Reg, assembleInstr ⟨.imul, .reg a, .reg b⟩ = .ok (refImul a b)) ∧
    (∀ a : Reg, assembleInstr ⟨.push, .reg a, .non⟩ = .ok (refPush a)) ∧
    (∀ a : Reg, assembleInstr ⟨.pop, .reg a, .non⟩ = .ok (refPop a)) ∧
    assembleInstr ⟨.ret, .non, .non⟩ = .ok refRet ∧
    Assembler.little_endian 1024 = [0, 0, 0, 0, 0, 0, 0, 0] ∧
    refLE64 1024 = [0, 4, 0, 0, 0, 0, 0, 0] ∧
    assembleInstr ⟨.immediate, .reg .rax, .imm 1024⟩ =
      .ok [0x48, 0xb8, 0, 0, 0, 0, 0, 0, 0, 0] ∧
    refMovImm64 .rax 1024 = [0x48, 0xb8, 0, 4, 0, 0, 0, 0, 0, 0] ∧
    (∀ a b : Operand, assembleInstr ⟨.neg, a, b⟩ =
      .error "AttributeError: Assembler object has no attribute register") ∧
    refNeg .rax = [0x48, 0xf7, 0xd8] :=
  ⟨by decide, by decide, by decide, by decide, by decide, by decide, by decide,
    by decide, by decide, by decide, by decide, fun a b => rfl, by decide⟩

/-- Routine whose body is `return c`: bytecode `LOAD_CONST 0; RETURN_VALUE`
with constant tuple `(c,)` and no arguments. -/
def constReturn (c : Int) : PyFun :=
  ⟨[⟨.LOAD_CONST, 0⟩, ⟨.RETURN_VALUE, 0⟩], [c], 0⟩

/-- IR that `Compiler.compile` produces for `constReturn c`. -/
def constReturnIR (c : Int) : List Instr :=
  [⟨.immediate, .reg .rax, .imm c⟩, ⟨.push, .reg .rax, .non⟩,
    ⟨.pop, .reg .rax, .non⟩, ⟨.ret, .non, .non⟩]

/-- C1.  The claim states that for supported-opcode routines the native
entry returns the interpreted result for all 64-bit inputs.  It fails: the
routines `return 1024` and `return 0` compile to byte-identical machine
code (the `little_endian` mask bug turns the immediate 1024 into eight zero
bytes), yet their interpreted results differ, so the native entry of at
least one of them cannot agree with its interpreted routine. -/
theorem C1_const1024_native_equals_const0 :
    compileNative (constReturn 1024) = compileNative (constReturn 0) ∧
    compileNative (constReturn 1024) =
      .ok [0x48, 0xb8, 0, 0, 0, 0, 0, 0, 0, 0, 0xc3] ∧
    pyInvoke (constReturn 1024) [] = some 1024 ∧
    pyInvoke (constReturn 0) [] = some 0 := by
  have hopt : ∀ c : Int, optFix (constReturnIR c) =
      [⟨.immediate, .reg .rax, .imm c⟩, ⟨.ret, .non, .non⟩] := by
    intro c
    simp [optFix, optimize, step, constReturnIR]
  have hpipe : ∀ c : Int, compileNative (constReturn c) =
      assemble [⟨.immediate, .reg .rax, .imm c⟩, ⟨.ret, .non, .non⟩] := by
    intro c
    have h1 : Compiler.compile [(⟨.LOAD_CONST, 0⟩ : PyInstr), ⟨.RETURN_VALUE, 0⟩] [c] =
        .ok (constReturnIR c) := rfl
    simp only [compileNative, constReturn, h1]
    show assemble (optFix (constReturnIR c)) = _
    rw [hopt c]
  refine ⟨?_, ?_, by decide, by decide⟩
  · rw [hpipe 1024, hpipe 0]
    decide
  · rw [hpipe 1024]
    decide

/-- C3 counterexample.  The claim states that the move-chain rewrite
(`mov X, Y ; mov Z, X` to `mov Z, Y`) preserves observable results for
every IR sequence.  It does not: the rewrite drops the write to `X`, so a
sequence that reads `X` afterwards observes the difference.  With initial
`rax = 1`, `rbx = 2`, the original sequence returns 1 but its rewrite
(first two instructions collapsed, `X = rbx`, `Y = rax`, `Z = rcx`)
returns 2. -/
theorem C3_counterexample :
    execIR [⟨.mov, .reg .rbx, .reg .rax⟩, ⟨.mov, .reg .rcx, .reg .rbx⟩,
        ⟨.push, .reg .rbx, .non⟩, ⟨.pop, .reg .rax, .non⟩, ⟨.ret, .non, .non⟩]
        ⟨⟨1, 0, 0, 2, 0, 0, 0, 0⟩, []⟩ = some 1 ∧
    execIR [⟨.mov, .reg .rcx, .reg .rax⟩,
        ⟨.push, .reg .rbx, .non⟩, ⟨.pop, .reg .rax, .non⟩, ⟨.ret, .non, .non⟩]
        ⟨⟨1, 0, 0, 2, 0, 0, 0, 0⟩, []⟩ = some 2 := by
  decide

/-- C3 (amended).  Self-move elimination preserves observable results for
every IR sequence and every initial state; the move-chain rewrite
preserves them provided the intermediate register `X` is not read again
before being overwritten in the remainder of the sequence (a condition the
windowed application does not by itself guarantee). -/
theorem C3_mov_rewrites_sound :
    (∀ (x : Reg) (rest : List Instr) (s : MState),
      execIR (⟨.mov, .reg x, .reg x⟩ :: rest) s = execIR rest s) ∧
    (∀ (x y z : Reg) (rest : List Instr) (s : MState),
      readBeforeWrite x rest = false →
      execIR (⟨.mov, .reg x, .reg y⟩ :: ⟨.mov, .reg z, .reg x⟩ :: rest) s =
        execIR (⟨.mov, .reg z, .reg y⟩ :: rest) s) := by
  constructor
  · intro x rest s
    simp only [execIR, RegFile.set_get_self]
  · intro x y z rest s hlive
    simp only [execIR, RegFile.get_set_same]
    by_cases hzx : z = x
    · subst hzx
      rw [RegFile.set_set_same]
    · refine execIR_agree x rest _ _ ?_ ?_ hlive
      · rfl
      intro r hr
      by_cases hrz : r = z
      · subst hrz
        rw [RegFile.get_set_same, RegFile.get_set_same]
      · rw [RegFile.get_set_ne _ _ _ _ hrz, RegFile.get_set_ne _ _ _ _ hrz,
          RegFile.get_set_ne _ _ _ _ hr]

/-- C3 witness: the amended move-chain soundness applied at `X = rbx`,
`Y = rax`, `Z = rcx` with remainder `[ret]`, whose liveness side condition
holds by computation. -/
theorem C3_witness :
    readBeforeWrite .rbx [⟨.ret, .non, .non⟩] = false ∧
    execIR [⟨.mov, .reg .rbx, .reg .rax⟩, ⟨.mov, .reg .rcx, .reg .rbx⟩,
        ⟨.ret, .non, .non⟩] ⟨⟨7, 0, 0, 9, 0, 0, 0, 0⟩, []⟩ =
      execIR [⟨.mov, .reg .rcx, .reg .rax⟩, ⟨.ret, .non, .non⟩]
        ⟨⟨7, 0, 0, 9, 0, 0, 0, 0⟩, []⟩ :=
  ⟨by decide,
    C3_mov_rewrites_sound.2 .rbx .rax .rcx [⟨.ret, .non, .non⟩]
      ⟨⟨7, 0, 0, 9, 0, 0, 0, 0⟩, []⟩ (by decide)⟩

/-- C4 counterexample.  The claim states that `push X ; op ; pop Y` may be
rewritten to `mov Y, X ; op` whenever `op` is neither a push nor a pop and
the destination of `op` differs from `Y`.  It does not account for `op`
reading `Y`: with `X = rax`, `op = add rbx, rcx`, `Y = rcx` (destination
`rbx` differs from `rcx`) and initial `rax = 1`, `rcx = 5`, `rbx = 10`,
the original sequence returns 15 while the rewritten sequence returns 11,
because after the rewrite the addition reads the moved value instead of
the original `rcx`. -/
theorem C4_counterexample :
    execIR [⟨.push, .reg .rax, .non⟩, ⟨.add, .reg .rbx, .reg .rcx⟩,
        ⟨.pop, .reg .rcx, .non⟩, ⟨.push, .reg .rbx, .non⟩,
        ⟨.pop, .reg .rax, .non⟩, ⟨.ret, .non, .non⟩]
        ⟨⟨1, 5, 0, 10, 0, 0, 0, 0⟩, []⟩ = some 15 ∧
    execIR [⟨.mov, .reg .rcx, .reg .rax⟩, ⟨.add, .reg .rbx, .reg .rcx⟩,
        ⟨.push, .reg .rbx, .non⟩,
        ⟨.pop, .reg .rax, .non⟩, ⟨.ret, .non, .non⟩]
        ⟨⟨1, 5, 0, 10, 0, 0, 0, 0⟩, []⟩ = some 11 := by
  decide

/-- C4 (amended).  The distance-2 push/pop collapse is sound when, in
addition to the guards the code checks (`op` neither push nor pop, and the
destination operand of `op` different from `Y`), `op` is not `ret` and the
source operand of `op` is not `Y` either: then for every remainder and
every initial state the rewritten window computes the same result. -/
theorem C4_push_op_pop_sound (x y : Reg) (op2 : Instr) (rest : List Instr)
    (s : MState)
    (hpush : op2.op ≠ .push) (hpop : op2.op ≠ .pop) (hret : op2.op ≠ .ret)
    (hdest : op2.a ≠ .reg y) (hsrc : op2.b ≠ .reg y) :
    execIR (⟨.push, .reg x, .non⟩ :: op2 :: ⟨.pop, .reg y, .non⟩ :: rest) s =
      execIR (⟨.mov, .reg y, .reg x⟩ :: op2 :: rest) s := by
  obtain ⟨o, a2, b2⟩ := op2
  simp only at hdest hsrc
  cases o
  case push => exact absurd rfl hpush
  case pop => exact absurd rfl hpop
  case ret => exact absurd rfl hret
  case mov =>
    rcases a2 with _ | d | n <;> rcases b2 with _ | sr | m <;> simp only [execIR] <;>
      try rfl
    have hdy : d ≠ y := fun h => hdest (congrArg Operand.reg h)
    have hsy : sr ≠ y := fun h => hsrc (congrArg Operand.reg h)
    rw [RegFile.get_set_ne _ _ _ _ hsy, RegFile.set_comm _ _ _ _ _ hdy]
  case immediate =>
    rcases a2 with _ | d | n <;> rcases b2 with _ | sr | m <;> simp only [execIR] <;>
      try rfl
    have hdy : d ≠ y := fun h => hdest (congrArg Operand.reg h)
    rw [RegFile.set_comm _ _ _ _ _ hdy]
  case add =>
    rcases a2 with _ | d | n <;> rcases b2 with _ | sr | m <;> simp only [execIR] <;>
      try rfl
    have hdy : d ≠ y := fun h => hdest (congrArg Operand.reg h)
    have hsy : sr ≠ y := fun h => hsrc (congrArg Operand.reg h)
    rw [RegFile.get_set_ne _ _ _ _ hsy, RegFile.get_set_ne _ _ _ _ hdy,
      RegFile.set_comm _ _ _ _ _ hdy]
  case sub =>
    rcases a2 with _ | d | n <;> rcases b2 with _ | sr | m <;> simp only [execIR] <;>
      try rfl
    have hdy : d ≠ y := fun h => hdest (congrArg Operand.reg h)
    have hsy : sr ≠ y := fun h => hsrc (congrArg Operand.reg h)
    rw [RegFile.get_set_ne _ _ _ _ hsy, RegFile.get_set_ne _ _ _ _ hdy,
      RegFile.set_comm _ _ _ _ _ hdy]
  case imul =>
    rcases a2 with _ | d | n <;> rcases b2 with _ | sr | m <;> simp only [execIR] <;>
      try rfl
    have hdy : d ≠ y := fun h => hdest (congrArg Operand.reg h)
    have hsy : sr ≠ y := fun h => hsrc (congrArg Operand.reg h)
    rw [RegFile.get_set_ne _ _ _ _ hsy, RegFile.get_set_ne _ _ _ _ hdy,
      RegFile.set_comm _ _ _ _ _ hdy]
  case neg =>
    rcases a2 with _ | d | n <;> simp only [execIR] <;> try rfl
    all_goals {
      have hdy : d ≠ y := fun h => hdest (congrArg Operand.reg h)
      rw [RegFile.get_set_ne _ _ _ _ hdy, RegFile.set_comm _ _ _ _ _ hdy]
    }

/-- C4 witness: the amended soundness applied at `X = rax`,
`op = add rbx, rdx`, `Y = rcx` with remainder `[ret]`, all side conditions
holding by computation. -/
theorem C4_witness :
    ((⟨.add, .reg .rbx, .reg .rdx⟩ : Instr).op ≠ .push ∧
      (⟨.add, .reg .rbx, .reg .rdx⟩ : Instr).op ≠ .pop ∧
      (⟨.add, .reg .rbx, .reg .rdx⟩ : Instr).op ≠ .ret ∧
      (⟨.add, .reg .rbx, .reg .rdx⟩ : Instr).a ≠ .reg .rcx ∧
      (⟨.add, .reg .rbx, .reg .rdx⟩ : Instr).b ≠ .reg .rcx) ∧
    execIR [⟨.push, .reg .rax, .non⟩, ⟨.add, .reg .rbx, .reg .rdx⟩,
        ⟨.pop, .reg .rcx, .non⟩, ⟨.ret, .non, .non⟩]
        ⟨⟨1, 2, 3, 4, 5, 6, 7, 8⟩, []⟩ =
      execIR [⟨.mov, .reg .rcx, .reg .rax⟩, ⟨.add, .reg .rbx, .reg .rdx⟩,
        ⟨.ret, .non, .non⟩] ⟨⟨1, 2, 3, 4, 5, 6, 7, 8⟩, []⟩ :=
  ⟨⟨by decide, by decide, by decide, by decide, by decide⟩,
    C4_push_op_pop_sound .rax .rcx ⟨.add, .reg .rbx, .reg .rdx⟩
      [⟨.ret, .non, .non⟩] ⟨⟨1, 2, 3, 4, 5, 6, 7, 8⟩, []⟩
      (by decide) (by decide) (by decide) (by decide) (by decide)⟩

/-- C5.  One optimizer pass never lengthens the IR; a pass that returns a
sequence of the same length returned the input itself; and the
repeat-until-no-length-change driver stops at a true fixed point, so
rerunning the optimizer on its final result changes nothing. -/
theorem C5_optimizer_fixpoint (ir : List Instr) :
    (optimize ir).length ≤ ir.length ∧
    ((optimize ir).length = ir.length → optimize ir = ir) ∧
    optimize (optFix ir) = optFix ir :=
  ⟨optimize_length_le ir, optimize_eq_of_length ir, optimize_optFix ir⟩

/-- C5 witness: the fixed-point properties instantiated at the IR `[ret]`,
whose pass output has the input length. -/
theorem C5_witness :
    (optimize [(⟨.ret, .non, .non⟩ : Instr)]).length ≤
      [(⟨.ret, .non, .non⟩ : Instr)].length ∧
    optimize [(⟨.ret, .non, .non⟩ : Instr)] = [⟨.ret, .non, .non⟩] ∧
    optimize (optFix [(⟨.ret, .non, .non⟩ : Instr)]) =
      optFix [(⟨.ret, .non, .non⟩ : Instr)] :=
  ⟨(C5_optimizer_fixpoint _).1,
    (C5_optimizer_fixpoint _).2.1 (by simp [optimize, step]),
    (C5_optimizer_fixpoint _).2.2⟩

/-- Decoded bytecode of `store_then_load(a) = (t = a; t)`:
`LOAD_FAST 0; STORE_FAST 1; LOAD_FAST 1; RETURN_VALUE`. -/
def storeThenLoadBytecode : List PyInstr :=
  [⟨.LOAD_FAST, 0⟩, ⟨.STORE_FAST, 1⟩, ⟨.LOAD_FAST, 1⟩, ⟨.RETURN_VALUE, 0⟩]

/-- IR that `Compiler.compile` produces for `storeThenLoadBytecode`. -/
def storeThenLoadIR : List Instr :=
  [⟨.push, .reg .rdi, .non⟩, ⟨.pop, .reg .rax, .non⟩,
    ⟨.mov, .reg .rsi, .reg .rax⟩, ⟨.push, .reg .rsi, .non⟩,
    ⟨.pop, .reg .rax, .non⟩, ⟨.ret, .non, .non⟩]

/-- C6.  Compiling `store_then_load` and optimizing to the fixed point
collapses all store/load stack traffic into the single move
`mov rax, rdi` followed by `ret`, and executing that code with the
argument `a` in `rdi` (the first-argument register) returns `a` for every
64-bit value. -/
theorem C6_store_then_load :
    Compiler.compile storeThenLoadBytecode [] = .ok storeThenLoadIR ∧
    optFix storeThenLoadIR = [⟨.mov, .reg .rax, .reg .rdi⟩, ⟨.ret, .non, .non⟩] ∧
    (∀ a : Nat, a < 2 ^ 64 →
      execIR (optFix storeThenLoadIR) ⟨⟨0, 0, 0, 0, 0, 0, 0, a⟩, []⟩ = some a) := by
  have hfix : optFix storeThenLoadIR =
      [⟨.mov, .reg .rax, .reg .rdi⟩, ⟨.ret, .non, .non⟩] := by
    simp [optFix, optimize, step, storeThenLoadIR]
  refine ⟨by decide, hfix, ?_⟩
  intro a _
  rw [hfix]
  rfl

/-- C6 witness: the compiled routine applied to the argument 5. -/
theorem C6_witness :
    (5 : Nat) < 2 ^ 64 ∧
    execIR (optFix storeThenLoadIR) ⟨⟨0, 0, 0, 0, 0, 0, 0, 5⟩, []⟩ = some 5 :=
  ⟨by decide, C6_store_then_load.2.2 5 (by decide)⟩

/-- C7.  A routine whose bytecode contains an opcode outside the supported
set never yields native code: compilation fails with an error (the whole
`Except` pipeline aborts, so no partial code is ever produced), the adapter
caches the interpreted routine forever, and every invocation of the
wrapper returns exactly the interpreted routine's result, whatever the
semantics `runNative` of native entries may be. -/
theorem C7_unsupported_opcode_fallback
    (runNative : List Int → List Int → Option Int) (f : PyFun)
    (args : List Int) (n : Nat)
    (h : f.bytecode.any (fun i => isUnsupported i.op) = true) :
    (∃ e, Compiler.compile f.bytecode f.consts = .error e) ∧
    (∃ e, compileNative f = .error e) ∧
    frontendRun f (n + 1) = some .interpreted ∧
    frontendResult runNative f n args = pyInvoke f args := by
  have h1 := compile_error_of_unsupported f.bytecode f.consts h
  have h2 := compileNative_error_of_compile_error f h1
  have h3 := compileTarget_of_error f h2
  refine ⟨h1, h2, ?_, ?_⟩
  · rw [frontendRun_succ, h3]
  · rw [frontendResult, frontendCalled_eq, h3]
    rfl

/-- Routine using the unsupported opcode `LOAD_GLOBAL`. -/
def unsupportedFun : PyFun :=
  ⟨[⟨.other "LOAD_GLOBAL", 0⟩, ⟨.RETURN_VALUE, 0⟩], [], 0⟩

/-- C7 witness: the fallback behaviour on a routine containing
`LOAD_GLOBAL`. -/
theorem C7_witness :
    unsupportedFun.bytecode.any (fun i => isUnsupported i.op) = true ∧
    (∃ e, compileNative unsupportedFun = .error e) ∧
    frontendRun unsupportedFun 1 = some .interpreted ∧
    frontendResult (fun _ _ => none) unsupportedFun 0 [] =
      pyInvoke unsupportedFun [] :=
  ⟨by decide,
    (C7_unsupported_opcode_fallback (fun _ _ => none) unsupportedFun [] 0
      (by decide)).2.1,
    (C7_unsupported_opcode_fallback (fun _ _ => none) unsupportedFun [] 0
      (by decide)).2.2.1,
    (C7_unsupported_opcode_fallback (fun _ _ => none) unsupportedFun [] 0
      (by decide)).2.2.2⟩

/-- C8.  Across a single-threaded sequence of invocations, compilation is
attempted exactly on the first call and never again (`min n 1` attempts in
the first `n` calls), the cached state after the first call is permanent,
and every call invokes the cached target: the native entry after a
successful compilation, the original interpreted routine after a
failure. -/
theorem C8_compile_once_permanent (f : PyFun) (n : Nat) :
    frontendAttempts f n = min n 1 ∧
    frontendRun f (n + 1) = some (compileTarget f) ∧
    frontendCalled f n = compileTarget f ∧
    (∀ code, compileNative f = .ok code → frontendCalled f n = .native code) ∧
    (∀ e, compileNative f = .error e → frontendCalled f n = .interpreted) := by
  refine ⟨frontendAttempts_eq f n, frontendRun_succ f n, frontendCalled_eq f n, ?_, ?_⟩
  · intro code hc
    rw [frontendCalled_eq]
    simp only [compileTarget, hc]
  · intro e he
    rw [frontendCalled_eq]
    simp only [compileTarget, he]

/-- Native code produced for the routine returning its first argument:
`mov rax, rdi ; ret`, independently of the declared argument count. -/
theorem compileNative_loadfast0 (k : Nat) :
    compileNative ⟨[⟨.LOAD_FAST, 0⟩, ⟨.RETURN_VALUE, 0⟩], [], k⟩ =
      .ok [0x48, 0x89, 0xf8, 0xc3] := by
  have h2 : optFix [(⟨.push, .reg .rdi, .non⟩ : Instr), ⟨.pop, .reg .rax, .non⟩,
      ⟨.ret, .non, .non⟩] = [⟨.mov, .reg .rax, .reg .rdi⟩, ⟨.ret, .non, .non⟩] := by
    simp [optFix, optimize, step]
  show assemble (optFix [(⟨.push, .reg .rdi, .non⟩ : Instr), ⟨.pop, .reg .rax, .non⟩,
    ⟨.ret, .non, .non⟩]) = _
  rw [h2]
  decide

/-- One-argument identity routine. -/
def identityFun : PyFun := ⟨[⟨.LOAD_FAST, 0⟩, ⟨.RETURN_VALUE, 0⟩], [], 1⟩

/-- C8 witness: on a routine that compiles successfully, three calls
attempt one compilation and the third call still invokes the cached
native entry. -/
theorem C8_witness :
    frontendAttempts identityFun 3 = min 3 1 ∧
    frontendCalled identityFun 3 = .native [0x48, 0x89, 0xf8, 0xc3] :=
  ⟨(C8_compile_once_permanent identityFun 3).1,
    (C8_compile_once_permanent identityFun 3).2.2.2.1 [0x48, 0x89, 0xf8, 0xc3]
      (compileNative_loadfast0 1)⟩

/-- Routine with five declared arguments whose body returns the first. -/
def fiveArgFirst : PyFun := ⟨[⟨.LOAD_FAST, 0⟩, ⟨.RETURN_VALUE, 0⟩], [], 5⟩

/-- C9 counterexample.  The claim states that every routine requiring more
than four integer arguments is rejected.  It is not: `Compiler.compile`
only fails when the bytecode actually references a local slot beyond the
first four, so a five-argument routine whose body touches only slot 0
compiles to a native entry. -/
theorem C9_counterexample :
    fiveArgFirst.argcount = 5 ∧
    compileNative fiveArgFirst = .ok [0x48, 0x89, 0xf8, 0xc3] :=
  ⟨rfl, compileNative_loadfast0 5⟩

/-- C9 (amended).  Compilation fails (with `IndexError` from the
four-element register tuple, or another error raised earlier) for every
routine whose bytecode loads or stores a fast-local slot with index at
least 4 — in particular for any routine that actually reads more than four
arguments — and the adapter then falls back to the interpreted routine. -/
theorem C9_bigslot_fails
    (runNative : List Int → List Int → Option Int) (f : PyFun)
    (args : List Int) (n : Nat)
    (h : f.bytecode.any bigSlot = true) :
    (∃ e, compileNative f = .error e) ∧
    frontendRun f (n + 1) = some .interpreted ∧
    frontendResult runNative f n args = pyInvoke f args := by
  have h1 := compile_error_of_bigslot f.bytecode f.consts h
  have h2 := compileNative_error_of_compile_error f h1
  have h3 := compileTarget_of_error f h2
  refine ⟨h2, ?_, ?_⟩
  · rw [frontendRun_succ, h3]
  · rw [frontendResult, frontendCalled_eq, h3]
    rfl

/-- Routine that loads fast-local slot 4 (its fifth argument). -/
def fiveArgAll : PyFun := ⟨[⟨.LOAD_FAST, 4⟩, ⟨.RETURN_VALUE, 0⟩], [], 5⟩

/-- C9 witness: the amended statement on a routine that reads its fifth
argument. -/
theorem C9_witness :
    fiveArgAll.bytecode.any bigSlot = true ∧
    (∃ e, compileNative fiveArgAll = .error e) ∧
    frontendResult (fun _ _ => none) fiveArgAll 0 [] = pyInvoke fiveArgAll [] :=
  ⟨by decide,
    (C9_bigslot_fails (fun _ _ => none) fiveArgAll [] 0 (by decide)).1,
    (C9_bigslot_fails (fun _ _ => none) fiveArgAll [] 0 (by decide)).2.2⟩

/-- C10.  A single optimizer pass keeps every instruction that is not a
`mov`, `push` or `pop` — all arithmetic instructions, immediate loads and
returns — with unchanged operands and in the same relative order: the
subsequence of such instructions is the same before and after the pass.
Only `mov`, `push` and `pop` instructions are deleted or replaced. -/
theorem C10_arith_instructions_preserved (ir : List Instr) :
    (optimize ir).filter preserved = ir.filter preserved :=
  optimize_filter ir
